import Mathlib

/-!
Shallow embedding of the MaLTPyNT/HENDRICS Good-Time-Interval algebra and
Welch spectral-estimation engine (`mp_base.py`, `mp_fspec.py`,
`hendrics/efsearch.py`), together with theorems settling the behavioural
claims about it.

Modelling conventions:
- numpy float arrays of times, counts and powers are modelled as `List ℚ`;
  complex FFT values as pairs `ℚ × ℚ` (real, imaginary part);
- external numeric collaborators (numpy's `fft`, `sqrt`, and scipy's
  chi-squared `sf`/`isf`) are passed in as function parameters, since they
  are not code of this repository;
- Python code that raises (IndexError on an empty array, a failed assert,
  a division by zero, an unbound name) is modelled by `Option`, with `none`
  standing for the raised exception.
-/

/-- numpy `np.arange(start, stop, step)` for a positive rational step:
the values `start + i * step` for `0 ≤ i < ⌈(stop - start) / step⌉`. -/
def np_arange (start stop step : ℚ) : List ℚ :=
  (List.range (⌈(stop - start) / step⌉).toNat).map (fun (i : ℕ) => start + (i : ℚ) * step)

/-- numpy `np.fft.fftfreq(n, d)`: the frequencies
`[0, 1, ..., (n-1)/2#, -(n/2#), ..., -1] / (n*d)` (with `#` denoting floor
division), i.e. the non-negative bins first, then the negative ones. -/
def np_fftfreq (n : Nat) (d : ℚ) : List ℚ :=
  ((List.range ((n + 1) / 2)).map (fun (i : ℕ) => (i : ℚ) / ((n : ℚ) * d))) ++
    ((List.range (n / 2)).map (fun (i : ℕ) => ((i : ℚ) - ((n / 2 : Nat) : ℚ)) / ((n : ℚ) * d)))

/-! ### mp_base.py -/

/-- The change indices computed inside `mp_contiguous_regions`:
`diff = np.diff(condition); idx, = diff.nonzero(); idx += 1` — the positions
`i + 1` at which `condition[i] != condition[i + 1]`. -/
def changePoints (condition : List Bool) : List Nat :=
  ((List.range (condition.length - 1)).filter
    (fun i => condition.getD i false != condition.getD (i + 1) false)).map (fun i => i + 1)

/-- The final `idx.shape = (-1, 2)` reshape of `mp_contiguous_regions`:
consecutive elements are paired up.  (For a non-empty condition array the
index list always has even length, so the numpy reshape never fails and no
element is dropped.) -/
def pairUp : List Nat → List (Nat × Nat)
  | a :: b :: rest => (a, b) :: pairUp rest
  | _ => []

/-- `mp_contiguous_regions(condition)` from `mp_base.py`: the maximal runs of
`True` in `condition`, as half-open index pairs.  On a zero-length array the
Python code evaluates `condition[0]` and raises IndexError, modelled by
`none`. -/
def mp_contiguous_regions (condition : List Bool) : Option (List (Nat × Nat)) :=
  match condition with
  | [] => none
  | c0 :: _ =>
    let idx0 := changePoints condition
    let idx1 := if c0 then 0 :: idx0 else idx0
    let idx2 := if condition.getLastD false then idx1 ++ [condition.length] else idx1
    some (pairUp idx2)

/-- One iteration of the `for ig, gti in enumerate(gtis)` loop of
`mp_create_gti_mask`: trim the interval by the safe margins, and if the
trimmed length exceeds `min_length`, OR the in-interval condition into the
mask and record the trimmed interval. -/
def maskStep (time : List ℚ) (s0 s1 min_length : ℚ)
    (acc : List Bool × List (ℚ × ℚ)) (gti : ℚ × ℚ) : List Bool × List (ℚ × ℚ) :=
  let limmin := gti.1 + s0
  let limmax := gti.2 - s1
  if min_length < limmax - limmin then
    ((time.zip acc.1).map (fun p => p.2 || (decide (limmin ≤ p.1) && decide (p.1 < limmax))),
      acc.2 ++ [(limmin, limmax)])
  else acc

/-- `mp_create_gti_mask(time, gtis, safe_interval=[s0, s1], min_length,
return_new_gtis=True)` from `mp_base.py`: returns the boolean mask (started
as `np.zeros(len(time))`) and the list of trimmed intervals that survived
the `min_length` cut. -/
def mp_create_gti_mask (time : List ℚ) (gtis : List (ℚ × ℚ)) (s0 s1 min_length : ℚ) :
    List Bool × List (ℚ × ℚ) :=
  gtis.foldl (maskStep time s0 s1 min_length) (List.replicate time.length false, [])

/-- `mp_create_gti_from_condition(time, condition, safe_interval=[s0, s1])`
from `mp_base.py`: for each contiguous `True` run, the interval
`[time[idx0] + s0, time[min(idx1, len(time) - 1)] - s1]`, kept unless its
length is negative (`if t1 - t0 < 0: continue`).  `none` models the
IndexError raised by `mp_contiguous_regions` on an empty condition. -/
def mp_create_gti_from_condition (time : List ℚ) (condition : List Bool) (s0 s1 : ℚ) :
    Option (List (ℚ × ℚ)) :=
  (mp_contiguous_regions condition).map (fun idxs =>
    idxs.filterMap (fun idx =>
      let t0 := time.getD idx.1 0 + s0
      let t1 := time.getD (min idx.2 (time.length - 1)) 0 - s1
      if t1 - t0 < 0 then none else some (t0, t1)))

/-- `mp_detection_level(nbins, epsilon, n_summed_spectra, n_rebin)` from
`mp_base.py`, with scipy's `stats.chi2.isf` passed in as the external
statistics backend `isf` (taking the probability and the degrees of
freedom): `isf(epsilon / nbins, 2 * n * r) / (n * r)`. -/
def mp_detection_level (isf : ℚ → ℚ → ℚ) (nbins epsilon n_summed_spectra n_rebin : ℚ) : ℚ :=
  isf (epsilon / nbins) (2 * n_summed_spectra * n_rebin) / (n_summed_spectra * n_rebin)

/-- `mp_probability_of_power(level, nbins, n_summed_spectra, n_rebin)` from
`mp_base.py`, with scipy's `stats.chi2.sf` passed in as the external
statistics backend `sf` (taking the statistic value and the degrees of
freedom).  The code computes `epsilon = nbins * sf(...)` and returns
`1 - epsilon`. -/
def mp_probability_of_power (sf : ℚ → ℚ → ℚ) (level nbins n_summed_spectra n_rebin : ℚ) : ℚ :=
  1 - nbins * sf (level * n_summed_spectra * n_rebin) (2 * n_summed_spectra * n_rebin)

/-! ### mp_fspec.py -/

/-- The complex product `conj a * b` on pairs (real, imaginary). -/
def conjMul (a b : ℚ × ℚ) : ℚ × ℚ :=
  (a.1 * b.1 + a.2 * b.2, a.1 * b.2 - a.2 * b.1)

/-- `mp_leahy_pds(lc, bintime)` from `mp_fspec.py`, with numpy's `fft`
passed in as an external parameter (`np.fft.fft` returns one complex value
per input sample).  Computes `|ft|^2 * 2 / nph` (all zeros when the total
count `nph` is zero) and keeps only the non-negative frequencies; returns
`(freqs, pds)`. -/
def mp_leahy_pds (fft : List ℚ → List (ℚ × ℚ)) (lc : List ℚ) (bintime : ℚ) :
    List ℚ × List ℚ :=
  let nph := lc.sum
  let freqs := np_fftfreq lc.length bintime
  let ft := fft lc
  let pds := if nph = 0 then List.replicate freqs.length (0 : ℚ)
    else ft.map (fun z => (z.1 * z.1 + z.2 * z.2) * 2 / nph)
  let good := (freqs.zip pds).filter (fun p => decide (0 ≤ p.1))
  (good.map Prod.fst, good.map Prod.snd)

/-- `mp_leahy_cpds(lc1, lc2, bintime)` from `mp_fspec.py`, with numpy's
`fft` and `sqrt` passed in as external parameters.  The
`assert len(lc1) == len(lc2)` is modelled by `none`; otherwise the
cross spectrum `conj(ft1) * ft2 * 2 / sqrt(nph1 * nph2)` (all zeros when
the geometric-mean count is zero) is restricted to non-negative
frequencies. -/
def mp_leahy_cpds (fft : List ℚ → List (ℚ × ℚ)) (sqrtq : ℚ → ℚ)
    (lc1 lc2 : List ℚ) (bintime : ℚ) : Option (List ℚ × List (ℚ × ℚ)) :=
  if lc1.length = lc2.length then
    let nph1 := lc1.sum
    let nph2 := lc2.sum
    let freqs := np_fftfreq lc1.length bintime
    let ft1 := fft lc1
    let ft2 := fft lc2
    let nph := sqrtq (nph1 * nph2)
    let cpds := if nph = 0 then List.replicate freqs.length ((0 : ℚ), (0 : ℚ))
      else (ft1.zip ft2).map (fun p =>
        ((conjMul p.1 p.2).1 * 2 / nph, (conjMul p.1 p.2).2 * 2 / nph))
    let good := (freqs.zip cpds).filter (fun p => decide (0 ≤ p.1))
    some (good.map Prod.fst, good.map Prod.snd)
  else none

/-- `mp_decide_spectrum_intervals(gtis, fftlen)` from `mp_fspec.py`: for
each GTI, skip it when `g[1] - g[0] < fftlen`, otherwise append
`np.arange(g[0], g[1] - fftlen, fftlen)`. -/
def mp_decide_spectrum_intervals (gtis : List (ℚ × ℚ)) (fftlen : ℚ) : List ℚ :=
  gtis.foldl (fun acc g =>
    if g.2 - g.1 < fftlen then acc
    else acc ++ np_arange g.1 (g.2 - fftlen) fftlen) []

/-- The slice `lc[good]` with `good = (time >= t) & (time < t + fftlen)`
used by the Welch loops of `mp_fspec.py`. -/
def segment_lc (time lc : List ℚ) (t fftlen : ℚ) : List ℚ :=
  ((time.zip lc).filter (fun p => decide (t ≤ p.1) && decide (p.1 < t + fftlen))).map Prod.snd

/-- The accumulation `pds = 0; for ...: pds += p` of the Welch loops: the
first spectrum replaces the scalar zero, each further spectrum is added
elementwise.  Adding arrays of different lengths is a numpy broadcast
error, modelled by `none`.  (The general numpy length-1 broadcast is not
modelled; no theorem below touches that corner.) -/
def sumSpectra {α : Type} (add : α → α → α) : List (List α) → Option (List α)
  | [] => some []
  | p :: ps => ps.foldl (fun acc q =>
      match acc with
      | none => none
      | some s => if s.length = q.length then some (s.zipWith add q) else none) (some p)

/-- The list of per-segment `(f, p)` results of the `mp_welch_pds` loop:
one `mp_leahy_pds` call per planned segment start time. -/
def welch_pds_segments (fft : List ℚ → List (ℚ × ℚ))
    (time lc : List ℚ) (bintime fftlen : ℚ) (gti : List (ℚ × ℚ)) :
    List (List ℚ × List ℚ) :=
  (mp_decide_spectrum_intervals gti fftlen).map
    (fun t => mp_leahy_pds fft (segment_lc time lc t fftlen) bintime)

/-- `mp_welch_pds(time, lc, bintime, fftlen, gti)` from `mp_fspec.py`.
When no segment start is planned, the loop never runs: `pds /= npds`
divides by zero and the frequency array `f` is never bound (`none`).
Otherwise `f` is the frequency array of the last iteration, the summed
spectrum is divided by `npds = len(start_times)` and the error is
`pds / sqrt(npds)`. -/
def mp_welch_pds (fft : List ℚ → List (ℚ × ℚ)) (sqrtq : ℚ → ℚ)
    (time lc : List ℚ) (bintime fftlen : ℚ) (gti : List (ℚ × ℚ)) :
    Option (List ℚ × List ℚ × List ℚ × Nat) :=
  let start_times := mp_decide_spectrum_intervals gti fftlen
  let segs := welch_pds_segments fft time lc bintime fftlen gti
  match segs.getLast?, sumSpectra (fun a b : ℚ => a + b) (segs.map Prod.snd) with
  | some fp, some s =>
    let npds := start_times.length
    let pds := s.map (fun x => x / (npds : ℚ))
    some (fp.1, pds, pds.map (fun x => x / sqrtq (npds : ℚ)), npds)
  | _, _ => none

/-- `allSome` collapses a list of per-segment `Option` results: the first
raised exception aborts the whole loop. -/
def allSome {α : Type} : List (Option α) → Option (List α)
  | [] => some []
  | none :: _ => none
  | some a :: rest => (allSome rest).map (fun l => a :: l)

/-- The list of per-segment `mp_leahy_cpds` results of the `mp_welch_cpds`
loop (each may raise on mismatched segment lengths). -/
def welch_cpds_segments (fft : List ℚ → List (ℚ × ℚ)) (sqrtq : ℚ → ℚ)
    (time lc1 lc2 : List ℚ) (bintime fftlen : ℚ) (gti : List (ℚ × ℚ)) :
    List (Option (List ℚ × List (ℚ × ℚ))) :=
  (mp_decide_spectrum_intervals gti fftlen).map
    (fun t => mp_leahy_cpds fft sqrtq (segment_lc time lc1 t fftlen)
      (segment_lc time lc2 t fftlen) bintime)

/-- `mp_welch_cpds(time, lc1, lc2, bintime, fftlen, gti)` from
`mp_fspec.py`: same structure as `mp_welch_pds`, with complex (pair)
spectra and a per-segment `mp_leahy_cpds` call whose assert may abort the
loop. -/
def mp_welch_cpds (fft : List ℚ → List (ℚ × ℚ)) (sqrtq : ℚ → ℚ)
    (time lc1 lc2 : List ℚ) (bintime fftlen : ℚ) (gti : List (ℚ × ℚ)) :
    Option (List ℚ × List (ℚ × ℚ) × List (ℚ × ℚ) × Nat) :=
  let start_times := mp_decide_spectrum_intervals gti fftlen
  (allSome (welch_cpds_segments fft sqrtq time lc1 lc2 bintime fftlen gti)).bind
    (fun segs =>
      match segs.getLast?,
          sumSpectra (fun a b : ℚ × ℚ => (a.1 + b.1, a.2 + b.2)) (segs.map Prod.snd) with
      | some fp, some s =>
        let npds := start_times.length
        let cpds := s.map (fun z => (z.1 / (npds : ℚ), z.2 / (npds : ℚ)))
        some (fp.1, cpds,
          cpds.map (fun z => (z.1 / sqrtq (npds : ℚ), z.2 / sqrtq (npds : ℚ))), npds)
      | _, _ => none)

/-! ### hendrics/efsearch.py -/

/-- The candidate threshold computed by `_common_main` in
`hendrics/efsearch.py` under `--find-candidates`:
`threshold = 1 - args.conflevel / 100`. -/
def candidate_threshold (conflevel : ℚ) : ℚ := 1 - conflevel / 100

/-- The candidate-finding step of `_common_main`: the threshold above is
passed directly (as third argument) to the external
`stingray.pulse.search.search_best_peaks`, modelled as the parameter
`search_best_peaks`. -/
def hendrics_find_candidates
    (search_best_peaks : List ℚ → List ℚ → ℚ → List ℚ × List ℚ)
    (frequencies stats : List ℚ) (conflevel : ℚ) : List ℚ × List ℚ :=
  search_best_peaks frequencies stats (candidate_threshold conflevel)

/-! ### Helper lemmas: np_arange and the segment planner -/

theorem np_arange_eq_of_ceil (start stop step : ℚ) (n : ℕ)
    (h : ⌈(stop - start) / step⌉ = n) :
    np_arange start stop step = (List.range n).map (fun (i : ℕ) => start + (i : ℚ) * step) := by
  unfold np_arange
  rw [h, Int.toNat_natCast]

theorem mem_np_arange (start stop step t : ℚ) (hstep : 0 < step) :
    t ∈ np_arange start stop step ↔
      ∃ k : ℕ, t = start + (k : ℚ) * step ∧ start + (k : ℚ) * step < stop := by
  unfold np_arange
  rw [List.mem_map]
  constructor
  · rintro ⟨i, hi, rfl⟩
    rw [List.mem_range] at hi
    refine ⟨i, rfl, ?_⟩
    have h1 : ((i : ℕ) : ℤ) < ⌈(stop - start) / step⌉ := Int.lt_toNat.mp hi
    have h2 : (i : ℚ) < (stop - start) / step := by exact_mod_cast Int.lt_ceil.mp h1
    have h3 := (lt_div_iff₀ hstep).mp h2
    linarith
  · rintro ⟨k, rfl, hk⟩
    refine ⟨k, List.mem_range.mpr ?_, rfl⟩
    rw [Int.lt_toNat, Int.lt_ceil]
    push_cast
    rw [lt_div_iff₀ hstep]
    linarith

theorem np_arange_nil (start stop step : ℚ) (hstep : 0 < step) (h : stop ≤ start) :
    np_arange start stop step = [] := by
  unfold np_arange
  have h0 : stop - start ≤ 0 := by linarith
  have h1 : (stop - start) / step ≤ 0 := div_nonpos_of_nonpos_of_nonneg h0 hstep.le
  rw [Int.toNat_of_nonpos (Int.ceil_le.mpr (by exact_mod_cast h1))]
  rfl

theorem foldl_append_flatten {α β : Type} (f : α → List β) :
    ∀ (l : List α) (acc : List β),
      l.foldl (fun a g => a ++ f g) acc = acc ++ (l.map f).flatten
  | [], acc => by simp
  | g :: l, acc => by
    simp only [List.foldl_cons, List.map_cons, List.flatten_cons]
    rw [foldl_append_flatten f l (acc ++ f g), List.append_assoc]

theorem mp_decide_spectrum_intervals_eq_flatten (gtis : List (ℚ × ℚ)) (L : ℚ) (hL : 0 < L) :
    mp_decide_spectrum_intervals gtis L =
      (gtis.map (fun g => np_arange g.1 (g.2 - L) L)).flatten := by
  unfold mp_decide_spectrum_intervals
  have hfun : (fun (acc : List ℚ) (g : ℚ × ℚ) =>
      if g.2 - g.1 < L then acc else acc ++ np_arange g.1 (g.2 - L) L) =
      fun acc g => acc ++ np_arange g.1 (g.2 - L) L := by
    funext acc g
    split
    · next h => rw [np_arange_nil _ _ _ hL (by linarith), List.append_nil]
    · rfl
  rw [hfun, foldl_append_flatten, List.nil_append]

theorem mem_mp_decide_spectrum_intervals (gtis : List (ℚ × ℚ)) (L t : ℚ) (hL : 0 < L) :
    t ∈ mp_decide_spectrum_intervals gtis L ↔
      ∃ g ∈ gtis, ∃ k : ℕ, t = g.1 + (k : ℚ) * L ∧ g.1 + (k : ℚ) * L + L < g.2 := by
  rw [mp_decide_spectrum_intervals_eq_flatten gtis L hL]
  simp only [List.mem_flatten, List.mem_map]
  constructor
  · rintro ⟨l, ⟨g, hg, rfl⟩, ht⟩
    obtain ⟨k, rfl, hk⟩ := (mem_np_arange _ _ _ _ hL).mp ht
    exact ⟨g, hg, k, rfl, by linarith⟩
  · rintro ⟨g, hg, k, rfl, hk⟩
    exact ⟨np_arange g.1 (g.2 - L) L, ⟨g, hg, rfl⟩,
      (mem_np_arange _ _ _ _ hL).mpr ⟨k, rfl, by linarith⟩⟩

/-! ### Helper lemmas: the GTI-mask loop -/

theorem maskStep_fst_length (time : List ℚ) (s0 s1 ml : ℚ) (acc : List Bool × List (ℚ × ℚ))
    (g : ℚ × ℚ) (h : acc.1.length = time.length) :
    (maskStep time s0 s1 ml acc g).1.length = time.length := by
  simp only [maskStep]
  split
  · simp [h]
  · exact h

theorem maskStep_fst_getD (time : List ℚ) (s0 s1 ml : ℚ) (acc : List Bool × List (ℚ × ℚ))
    (g : ℚ × ℚ) (h : acc.1.length = time.length) (i : ℕ) (hi : i < time.length) :
    (maskStep time s0 s1 ml acc g).1.getD i false =
      (acc.1.getD i false ||
        (decide (ml < (g.2 - s1) - (g.1 + s0)) && (decide (g.1 + s0 ≤ time.getD i 0) &&
          decide (time.getD i 0 < g.2 - s1)))) := by
  simp only [maskStep]
  split
  · next hs =>
    have hz : i < ((time.zip acc.1).map
        (fun p => p.2 || (decide (g.1 + s0 ≤ p.1) && decide (p.1 < g.2 - s1)))).length := by
      simp [h, hi]
    rw [List.getD_eq_getElem _ _ hz, List.getElem_map, List.getElem_zip,
      List.getD_eq_getElem _ _ hi, List.getD_eq_getElem _ _ (by omega : i < acc.1.length),
      decide_eq_true hs, Bool.true_and]
  · next hs =>
    rw [decide_eq_false hs, Bool.false_and, Bool.or_false]

theorem foldl_maskStep_fst_length (time : List ℚ) (s0 s1 ml : ℚ) :
    ∀ (l : List (ℚ × ℚ)) (acc : List Bool × List (ℚ × ℚ)),
      acc.1.length = time.length →
      (l.foldl (maskStep time s0 s1 ml) acc).1.length = time.length
  | [], _, h => h
  | g :: l, acc, h =>
    foldl_maskStep_fst_length time s0 s1 ml l _ (maskStep_fst_length time s0 s1 ml acc g h)

theorem foldl_maskStep_fst_getD (time : List ℚ) (s0 s1 ml : ℚ) :
    ∀ (l : List (ℚ × ℚ)) (acc : List Bool × List (ℚ × ℚ)),
      acc.1.length = time.length → ∀ i : ℕ, i < time.length →
      (l.foldl (maskStep time s0 s1 ml) acc).1.getD i false =
        (acc.1.getD i false || l.any (fun g =>
          decide (ml < (g.2 - s1) - (g.1 + s0)) && (decide (g.1 + s0 ≤ time.getD i 0) &&
            decide (time.getD i 0 < g.2 - s1))))
  | [], acc, _, i, _ => by simp
  | g :: l, acc, h, i, hi => by
    rw [List.foldl_cons,
      foldl_maskStep_fst_getD time s0 s1 ml l _ (maskStep_fst_length time s0 s1 ml acc g h) i hi,
      maskStep_fst_getD time s0 s1 ml acc g h i hi, List.any_cons, Bool.or_assoc]

theorem foldl_maskStep_snd (time : List ℚ) (s0 s1 ml : ℚ) :
    ∀ (l : List (ℚ × ℚ)) (acc : List Bool × List (ℚ × ℚ)),
      (l.foldl (maskStep time s0 s1 ml) acc).2 =
        acc.2 ++ (l.filter (fun g => decide (ml < (g.2 - s1) - (g.1 + s0)))).map
          (fun g => (g.1 + s0, g.2 - s1))
  | [], acc => by simp
  | g :: l, acc => by
    rw [List.foldl_cons, foldl_maskStep_snd time s0 s1 ml l _, List.filter_cons]
    simp only [maskStep]
    split
    · next hs =>
      rw [if_pos (by simpa using hs)]
      simp
    · next hs =>
      rw [if_neg (by simpa using hs)]

/-- Claim C1: for every time array, GTI list, safe margins `(s0, s1)` and
`min_length`, `mp_create_gti_mask` produces a mask of the same length as
`time`; entry `i` is true iff some interval `g` whose trimmed length
`(g.stop - s1) - (g.start + s0)` exceeds `min_length` satisfies
`g.start + s0 ≤ time[i] < g.stop - s1` (half-open, so the trimmed stop is
excluded); the returned new GTIs are exactly the trimmed intervals
surviving the `min_length` cut; and an empty GTI list yields an all-false
mask. -/
theorem claim_C1 (time : List ℚ) (gtis : List (ℚ × ℚ)) (s0 s1 min_length : ℚ) :
    ((mp_create_gti_mask time gtis s0 s1 min_length).1.length = time.length)
    ∧ (∀ i : ℕ, i < time.length →
        ((mp_create_gti_mask time gtis s0 s1 min_length).1.getD i false = true ↔
          ∃ g ∈ gtis, min_length < (g.2 - s1) - (g.1 + s0) ∧
            g.1 + s0 ≤ time.getD i 0 ∧ time.getD i 0 < g.2 - s1))
    ∧ ((mp_create_gti_mask time gtis s0 s1 min_length).2 =
        (gtis.filter (fun g => decide (min_length < (g.2 - s1) - (g.1 + s0)))).map
          (fun g => (g.1 + s0, g.2 - s1)))
    ∧ (mp_create_gti_mask time [] s0 s1 min_length).1 = List.replicate time.length false := by
  refine ⟨?_, ?_, ?_, rfl⟩
  · exact foldl_maskStep_fst_length time s0 s1 min_length gtis _ (by simp)
  · intro i hi
    unfold mp_create_gti_mask
    rw [foldl_maskStep_fst_getD time s0 s1 min_length gtis _ (by simp) i hi]
    simp [List.any_eq_true, and_assoc]
  · unfold mp_create_gti_mask
    rw [foldl_maskStep_snd]
    simp

/-- Claim C1 witness: a timestamp strictly inside a surviving interval is
marked valid. -/
theorem claim_C1_witness :
    (mp_create_gti_mask [(1 : ℚ)] [((0 : ℚ), 2)] 0 0 0).1.getD 0 false = true :=
  ((claim_C1 [(1 : ℚ)] [((0 : ℚ), 2)] 0 0 0).2.1 0 (by norm_num)).mpr
    ⟨((0 : ℚ), (2 : ℚ)), by norm_num, by norm_num, by norm_num, by norm_num⟩

/-- Claim C2 counterexample: the interval `[0, 30]` has length `≥ 30` and
the start `0` satisfies `0 + 30 ≤ 30`, yet the planner emits nothing for
it: `np.arange(g[0], g[1] - fftlen, fftlen)` is a half-open range, so the
exactly-fitting last start is not emitted. -/
theorem claim_C2_counterexample :
    mp_decide_spectrum_intervals [((0 : ℚ), 30)] 30 = [] ∧
      ((30 : ℚ) - 0 ≥ 30 ∧ (0 : ℚ) + 30 ≤ 30) := by
  constructor
  · norm_num [mp_decide_spectrum_intervals,
      np_arange_eq_of_ceil 0 0 30 0 (by rw [Int.ceil_eq_iff]; norm_num)]
  · norm_num

/-- Claim C2 (amended): for positive segment length `L`, the planner
concatenates, in interval order, the arithmetic progressions
`np.arange(g.start, g.stop - L, L)`; a value is emitted iff it is
`g.start + k * L` for some natural `k` with `g.start + k * L + L < g.stop`
(strict, so an interval whose length is an exact multiple of `L` does not
contribute its exactly-fitting last start, and intervals of length `≤ L`
contribute nothing); for GTI `[[0, 100]]` and `L = 30` the result is
`[0, 30, 60]`. -/
theorem claim_C2 (gtis : List (ℚ × ℚ)) (L : ℚ) (hL : 0 < L) :
    (mp_decide_spectrum_intervals gtis L =
        (gtis.map (fun g => np_arange g.1 (g.2 - L) L)).flatten)
    ∧ (∀ t : ℚ, t ∈ mp_decide_spectrum_intervals gtis L ↔
        ∃ g ∈ gtis, ∃ k : ℕ, t = g.1 + (k : ℚ) * L ∧ g.1 + (k : ℚ) * L + L < g.2)
    ∧ mp_decide_spectrum_intervals [((0 : ℚ), 100)] 30 = [0, 30, 60] := by
  refine ⟨mp_decide_spectrum_intervals_eq_flatten gtis L hL,
    fun t => mem_mp_decide_spectrum_intervals gtis L t hL, ?_⟩
  norm_num [mp_decide_spectrum_intervals,
    np_arange_eq_of_ceil 0 70 30 3 (by rw [Int.ceil_eq_iff]; norm_num), List.range_succ]

/-- Claim C2 witness: the concrete planning scenario. -/
theorem claim_C2_witness :
    mp_decide_spectrum_intervals [((0 : ℚ), 100)] 30 = [0, 30, 60] :=
  (claim_C2 [((0 : ℚ), 100)] 30 (by norm_num)).2.2

/-! ### Helper lemmas: condition runs -/

theorem getD_false_of_all_false (condition : List Bool)
    (h : ∀ b ∈ condition, b = false) (i : ℕ) : condition.getD i false = false := by
  by_cases hi : i < condition.length
  · rw [List.getD_eq_getElem _ _ hi]
    exact h _ (List.getElem_mem hi)
  · exact List.getD_eq_default _ _ (by omega)

/-- Claim C10: an empty condition array makes `mp_create_gti_from_condition`
fail (the run finder indexes `condition[0]` of an empty array), while any
non-empty all-false condition yields an empty GTI list. -/
theorem claim_C10 (time : List ℚ) (s0 s1 : ℚ) (condition : List Bool) :
    mp_create_gti_from_condition time [] s0 s1 = none
    ∧ (condition ≠ [] → (∀ b ∈ condition, b = false) →
        mp_create_gti_from_condition time condition s0 s1 = some []) := by
  refine ⟨rfl, fun hne hall => ?_⟩
  have hcp : changePoints condition = [] := by
    unfold changePoints
    rw [List.filter_eq_nil_iff.mpr ?_]
    · rfl
    · intro i _
      rw [getD_false_of_all_false condition hall i,
        getD_false_of_all_false condition hall (i + 1)]
      simp
  obtain ⟨c, rest, rfl⟩ : ∃ c rest, condition = c :: rest := by
    cases condition with
    | nil => exact absurd rfl hne
    | cons c rest => exact ⟨c, rest, rfl⟩
  have hc : c = false := hall c (List.mem_cons_self c rest)
  subst hc
  have hlast : (false :: rest).getLastD false = false := by
    rcases List.mem_cons.mp (List.getLastD_mem_cons (false :: rest) false) with h1 | h1
    · exact h1
    · exact hall _ h1
  have hlast2 : (false :: rest).getLast?.getD false = false := by simpa using hlast
  simp [mp_create_gti_from_condition, mp_contiguous_regions, hcp, hlast2, pairUp]

/-- Claim C10 witness: a concrete non-empty all-false condition produces an
empty GTI list. -/
theorem claim_C10_witness :
    mp_create_gti_from_condition [] [false] 0 0 = some [] :=
  (claim_C10 [] 0 0 [false]).2 (by simp) (by simp)

/-- Claim C3 counterexample: for `time = [0, 1]`, a single run `[T, F]` and
safe margins `(1/2, 1/2)`, the returned GTI list is `[(1/2, 1/2)]` — a
zero-length interval, kept because the code only discards runs with
`t1 - t0 < 0` — so not every returned interval satisfies `start < stop`,
and the margins moved the endpoints inward, not outward. -/
theorem claim_C3_counterexample :
    mp_create_gti_from_condition [0, 1] [true, false] (1/2) (1/2) = some [(1/2, 1/2)] ∧
      ¬ ((1 : ℚ)/2 < (1 : ℚ)/2) := by
  constructor
  · norm_num [mp_create_gti_from_condition, mp_contiguous_regions, changePoints, pairUp,
      List.range_succ, List.filterMap_cons]
  · norm_num

/-- Claim C3 (amended): for every non-empty condition array,
`mp_create_gti_from_condition` succeeds and returns, for each maximal true
run, the interval `[time[run.start] + s0, time[min(run.stop, len-1)] - s1]`
— narrowed inward by the safe margins — keeping it only when its length is
non-negative, so every returned interval satisfies `start ≤ stop` (runs of
negative trimmed length are discarded, zero-length ones are kept). -/
theorem claim_C3 (time : List ℚ) (condition : List Bool) (s0 s1 : ℚ)
    (hne : condition ≠ []) :
    ∃ runs l, mp_contiguous_regions condition = some runs
      ∧ mp_create_gti_from_condition time condition s0 s1 = some l
      ∧ l = runs.filterMap (fun idx =>
          if (time.getD (min idx.2 (time.length - 1)) 0 - s1) -
              (time.getD idx.1 0 + s0) < 0 then none
          else some (time.getD idx.1 0 + s0,
            time.getD (min idx.2 (time.length - 1)) 0 - s1))
      ∧ ∀ g ∈ l, g.1 ≤ g.2 := by
  obtain ⟨runs, hruns⟩ : ∃ runs, mp_contiguous_regions condition = some runs := by
    cases condition with
    | nil => exact absurd rfl hne
    | cons c rest => exact ⟨_, rfl⟩
  refine ⟨runs, _, hruns, ?_, rfl, ?_⟩
  · unfold mp_create_gti_from_condition
    rw [hruns]
    rfl
  · intro g hg
    obtain ⟨idx, _, hidx⟩ := List.mem_filterMap.mp hg
    split at hidx
    · exact absurd hidx (by simp)
    · next hge =>
      obtain rfl := Option.some.inj hidx
      have := not_lt.mp hge
      simp only []
      linarith

/-- Claim C3 witness: a concrete run produces a (zero-length) interval with
`start ≤ stop`. -/
theorem claim_C3_witness :
    (mp_create_gti_from_condition [(0 : ℚ)] [true] 0 0).isSome = true := by
  obtain ⟨runs, l, h1, h2, h3, h4⟩ := claim_C3 [(0 : ℚ)] [true] 0 0 (by simp)
  rw [h2]
  rfl

/-! ### Helper lemma: the planner yields nothing when all intervals are short -/

theorem mp_decide_spectrum_intervals_nil (gti : List (ℚ × ℚ)) (fftlen : ℚ)
    (h : ∀ g ∈ gti, g.2 - g.1 < fftlen) :
    mp_decide_spectrum_intervals gti fftlen = [] := by
  unfold mp_decide_spectrum_intervals
  induction gti with
  | nil => rfl
  | cons g l ih =>
    rw [List.foldl_cons, if_pos (h g (by simp))]
    exact ih (fun g hg => h g (by simp [hg]))

/-- Claim C9: when no GTI is at least as long as the requested segment
length, the planner emits no segment starts and `mp_welch_pds` fails
(in the Python code `pds /= npds` divides by zero and the frequency array
`f` is never bound). -/
theorem claim_C9 (fft : List ℚ → List (ℚ × ℚ)) (sqrtq : ℚ → ℚ)
    (time lc : List ℚ) (bintime fftlen : ℚ) (gti : List (ℚ × ℚ))
    (h : ∀ g ∈ gti, g.2 - g.1 < fftlen) :
    mp_decide_spectrum_intervals gti fftlen = [] ∧
      mp_welch_pds fft sqrtq time lc bintime fftlen gti = none := by
  have h0 := mp_decide_spectrum_intervals_nil gti fftlen h
  refine ⟨h0, ?_⟩
  simp [mp_welch_pds, welch_pds_segments, h0]

/-- Claim C9 witness: a single GTI shorter than the segment length yields a
failing Welch computation. -/
theorem claim_C9_witness :
    mp_welch_pds (fun l => l.map (fun q => (q, 0))) (fun q => q) [] [] 1 2
      [((0 : ℚ), 1)] = none :=
  (claim_C9 (fun l => l.map (fun q => (q, 0))) (fun q => q) [] [] 1 2 [((0 : ℚ), 1)]
    (by intro g hg; rw [List.mem_singleton] at hg; subst hg; norm_num)).2

/-- Claim C4 counterexample: with a mock statistics backend whose survival
function returns `1` (the value `chi2.sf` takes at level `0`),
`mp_probability_of_power` at `level = 0`, `nbins = 1` returns `0`, not the
claimed `nbins * sf(level * n * r, 2 * n * r) = 1`: the code returns the
complement `1 - nbins * sf(...)`. -/
theorem claim_C4_counterexample :
    mp_probability_of_power (fun _ _ => (1 : ℚ)) 0 1 1 1 ≠
      (1 : ℚ) * (fun (_ _ : ℚ) => (1 : ℚ)) 0 2 := by
  norm_num [mp_probability_of_power]

/-- Claim C4 (amended): `mp_probability_of_power` returns the complement
`1 - nbins * sf(level * n * r, 2 * n * r)` of the false-alarm probability;
in particular, when the backend pair `(sf, isf)` is mutually inverse, the
power returned by `mp_detection_level` at significance `epsilon` is mapped
to `1 - epsilon`, not to `epsilon`. -/
theorem claim_C4 (sf isf : ℚ → ℚ → ℚ) (level nbins epsilon ns nr : ℚ)
    (hns : ns * nr ≠ 0) (hnb : nbins ≠ 0)
    (hinv : ∀ p d, sf (isf p d) d = p) :
    (mp_probability_of_power sf level nbins ns nr =
        1 - nbins * sf (level * ns * nr) (2 * ns * nr))
    ∧ mp_probability_of_power sf (mp_detection_level isf nbins epsilon ns nr) nbins ns nr =
        1 - epsilon := by
  obtain ⟨hn1, hn2⟩ := mul_ne_zero_iff.mp hns
  refine ⟨rfl, ?_⟩
  unfold mp_probability_of_power mp_detection_level
  have e1 : isf (epsilon / nbins) (2 * ns * nr) / (ns * nr) * ns * nr =
      isf (epsilon / nbins) (2 * ns * nr) := by
    field_simp
    ring
  rw [e1, hinv]
  have e2 : nbins * (epsilon / nbins) = epsilon := by field_simp
  rw [e2]

/-- Claim C4 witness: with the mutually inverse mock backend
`sf x d = 1 - x`, `isf p d = 1 - p`, the detection level at significance
`1/2` is mapped back to `1 - 1/2`. -/
theorem claim_C4_witness :
    mp_probability_of_power (fun x _ => 1 - x)
        (mp_detection_level (fun p _ => 1 - p) 2 (1/2) 1 1) 2 1 1 = 1 - 1/2 :=
  (claim_C4 (fun x _ => 1 - x) (fun p _ => 1 - p) 0 2 (1/2) 1 1 (by norm_num)
    (by norm_num) (by intro p d; ring)).2

/-- Claim C8 (code evaluation at the failing input): with
`conflevel = 99`, `_common_main` hands the probability
`1 - 99/100 = 1/100` itself to the external peak search as the statistic
threshold — no chi-squared inverse survival function is ever consulted, so
the cutoff is not the statistic value with false-alarm probability
`1/100`. -/
theorem claim_C8 :
    candidate_threshold 99 = 1/100
    ∧ ∀ (sbp : List ℚ → List ℚ → ℚ → List ℚ × List ℚ) (freqs stats : List ℚ),
        hendrics_find_candidates sbp freqs stats 99 = sbp freqs stats (1/100) := by
  have h : candidate_threshold 99 = 1/100 := by norm_num [candidate_threshold]
  refine ⟨h, fun sbp freqs stats => ?_⟩
  unfold hendrics_find_candidates
  rw [h]

/-! ### Helper lemmas: one-sided spectra -/

theorem np_fftfreq_length (n : ℕ) (d : ℚ) : (np_fftfreq n d).length = n := by
  simp only [np_fftfreq, List.length_append, List.length_map, List.length_range]
  omega

theorem zip_filter_map_fst {α : Type} (q : ℚ → Bool) :
    ∀ (l1 : List ℚ) (l2 : List α), l2.length = l1.length →
      ((l1.zip l2).filter (fun p => q p.1)).map Prod.fst = l1.filter q
  | [], l2, _ => by simp
  | _ :: _, [], h => by simp at h
  | a :: l1, b :: l2, h => by
    simp only [List.zip_cons_cons, List.filter_cons]
    by_cases hq : q a
    · rw [if_pos (by simpa using hq), if_pos hq, List.map_cons,
        zip_filter_map_fst q l1 l2 (by simpa using h)]
    · rw [if_neg (by simpa using hq), if_neg (by simpa using hq)]
      exact zip_filter_map_fst q l1 l2 (by simpa using h)

/-- Claim C6: the power spectrum is one-sided — the output frequency array
is the non-negative part of the FFT frequency grid, and the power array has
the same length; for a light curve with zero total counts every output
power is zero (no division is attempted); for nonzero total counts the
output is `|FFT|^2 * 2 / total` restricted to the non-negative
frequencies. -/
theorem claim_C6 (fft : List ℚ → List (ℚ × ℚ)) (lc : List ℚ) (bintime : ℚ)
    (hlen : (fft lc).length = lc.length) :
    ((mp_leahy_pds fft lc bintime).2.length = (mp_leahy_pds fft lc bintime).1.length)
    ∧ (lc.sum = 0 → ∀ x ∈ (mp_leahy_pds fft lc bintime).2, x = 0)
    ∧ ((mp_leahy_pds fft lc bintime).1 =
        (np_fftfreq lc.length bintime).filter (fun x => decide (0 ≤ x)))
    ∧ (lc.sum ≠ 0 → (mp_leahy_pds fft lc bintime).2 =
        (((np_fftfreq lc.length bintime).zip
            ((fft lc).map (fun z => (z.1 * z.1 + z.2 * z.2) * 2 / lc.sum))).filter
          (fun p => decide (0 ≤ p.1))).map Prod.snd) := by
  refine ⟨?_, ?_, ?_, ?_⟩
  · simp only [mp_leahy_pds, List.length_map]
  · intro h0 x hx
    simp only [mp_leahy_pds, h0, if_pos] at hx
    obtain ⟨p, hp, rfl⟩ := List.mem_map.mp hx
    exact List.eq_of_mem_replicate (List.of_mem_zip (List.mem_filter.mp hp).1).2
  · simp only [mp_leahy_pds]
    split
    · refine zip_filter_map_fst (fun x => decide (0 ≤ x)) _ _ ?_
      simp
    · refine zip_filter_map_fst (fun x => decide (0 ≤ x)) _ _ ?_
      simp [hlen, np_fftfreq_length]
  · intro h0
    simp only [mp_leahy_pds, h0, if_neg, if_false]

/-- Claim C6 witness: a zero-count light curve of two samples yields a
power array of the same length as the one-sided frequency array, namely
`[0]`. -/
theorem claim_C6_witness :
    ((mp_leahy_pds (fun l => l.map (fun q => (q, 0))) [0, 0] 1).2.length =
        (mp_leahy_pds (fun l => l.map (fun q => (q, 0))) [0, 0] 1).1.length) ∧
      (mp_leahy_pds (fun l => l.map (fun q => (q, 0))) [0, 0] 1).2 = [0] :=
  ⟨(claim_C6 (fun l => l.map (fun q => (q, 0))) [0, 0] 1 (by simp)).1,
    by norm_num [mp_leahy_pds, np_fftfreq, List.range_succ, List.filter_cons,
      List.replicate_succ]⟩

/-- Claim C7: the cross spectrum rejects light curves of different lengths
(the assert aborts before any spectrum is produced); for equal lengths and
a zero total count in either series (with `sqrt 0 = 0`, as for numpy) every
output cross power is zero; otherwise the normalization is
`conj(ft1) * ft2 * 2 / sqrt(N_a * N_b)` restricted to non-negative
frequencies. -/
theorem claim_C7 (fft : List ℚ → List (ℚ × ℚ)) (sqrtq : ℚ → ℚ)
    (lc1 lc2 : List ℚ) (bintime : ℚ) :
    (lc1.length ≠ lc2.length → mp_leahy_cpds fft sqrtq lc1 lc2 bintime = none)
    ∧ (lc1.length = lc2.length → sqrtq 0 = 0 → (lc1.sum = 0 ∨ lc2.sum = 0) →
        ∃ fr ps, mp_leahy_cpds fft sqrtq lc1 lc2 bintime = some (fr, ps) ∧
          ∀ z ∈ ps, z = ((0 : ℚ), (0 : ℚ)))
    ∧ (lc1.length = lc2.length → sqrtq (lc1.sum * lc2.sum) ≠ 0 →
        mp_leahy_cpds fft sqrtq lc1 lc2 bintime =
          some (let cp := ((fft lc1).zip (fft lc2)).map (fun p =>
              ((conjMul p.1 p.2).1 * 2 / sqrtq (lc1.sum * lc2.sum),
                (conjMul p.1 p.2).2 * 2 / sqrtq (lc1.sum * lc2.sum)));
            let good := ((np_fftfreq lc1.length bintime).zip cp).filter
              (fun p => decide (0 ≤ p.1))
            (good.map Prod.fst, good.map Prod.snd))) := by
  refine ⟨fun h => by simp [mp_leahy_cpds, h], ?_, ?_⟩
  · intro hl hs0 hz
    have hnph : sqrtq (lc1.sum * lc2.sum) = 0 := by
      rcases hz with h | h
      · rw [h, zero_mul]; exact hs0
      · rw [h, mul_zero]; exact hs0
    simp only [mp_leahy_cpds, if_pos hl, hnph, if_pos]
    refine ⟨_, _, rfl, ?_⟩
    intro z hz2
    obtain ⟨p, hp, rfl⟩ := List.mem_map.mp hz2
    exact List.eq_of_mem_replicate (List.of_mem_zip (List.mem_filter.mp hp).1).2
  · intro hl hnph
    simp only [mp_leahy_cpds, if_pos hl, hnph, if_neg, if_false]

/-- Claim C7 witness: light curves of lengths 1 and 2 are rejected. -/
theorem claim_C7_witness :
    mp_leahy_cpds (fun l => l.map (fun q => (q, 0))) (fun q => q) [1] [2, 3] 1 = none :=
  (claim_C7 (fun l => l.map (fun q => (q, 0))) (fun q => q) [1] [2, 3] 1).1 (by simp)

/-! ### Helper lemmas: the Welch accumulation loop -/

theorem sumSpectra_cons_spec {α : Type} (add : α → α → α) (d : α) (L : ℕ) :
    ∀ (p : List α) (ps : List (List α)), p.length = L → (∀ l ∈ ps, l.length = L) →
      ∃ s, sumSpectra add (p :: ps) = some s ∧ s.length = L ∧
        ∀ i : ℕ, i < L → s.getD i d = ps.foldl (fun a l => add a (l.getD i d)) (p.getD i d)
  | p, [], hp, _ => ⟨p, rfl, hp, fun _ _ => rfl⟩
  | p, q :: ps, hp, hps => by
    have hq : q.length = L := hps q (by simp)
    have hpq : (List.zipWith add p q).length = L := by
      rw [List.length_zipWith, hp, hq, Nat.min_self]
    obtain ⟨s, hs1, hs2, hs3⟩ := sumSpectra_cons_spec add d L (List.zipWith add p q) ps hpq
      (fun l hl => hps l (by simp [hl]))
    refine ⟨s, ?_, hs2, ?_⟩
    · show (q :: ps).foldl _ (some p) = some s
      rw [List.foldl_cons]
      show ps.foldl _ (if p.length = q.length then some (List.zipWith add p q) else none) = some s
      rw [if_pos (by rw [hp, hq])]
      exact hs1
    · intro i hi
      have hz : (List.zipWith add p q).getD i d = add (p.getD i d) (q.getD i d) := by
        rw [List.getD_eq_getElem _ _ (by omega), List.getD_eq_getElem _ _ (by omega),
          List.getD_eq_getElem _ _ (by omega), List.getElem_zipWith]
      have hs3i := hs3 i hi
      rw [hz] at hs3i
      rw [List.foldl_cons]
      exact hs3i

theorem foldl_add_eq_sum (f : List ℚ → ℚ) :
    ∀ (ls : List (List ℚ)) (c : ℚ), ls.foldl (fun a l => a + f l) c = c + (ls.map f).sum
  | [], c => by simp
  | l :: ls, c => by
    rw [List.foldl_cons, foldl_add_eq_sum f ls (c + f l), List.map_cons, List.sum_cons]
    ring

theorem foldl_padd_eq_sum (f : List (ℚ × ℚ) → ℚ × ℚ) :
    ∀ (ls : List (List (ℚ × ℚ))) (c : ℚ × ℚ),
      ls.foldl (fun a l => (a.1 + (f l).1, a.2 + (f l).2)) c =
        (c.1 + (ls.map (fun l => (f l).1)).sum, c.2 + (ls.map (fun l => (f l).2)).sum)
  | [], c => by simp
  | l :: ls, c => by
    rw [List.foldl_cons, foldl_padd_eq_sum f ls ((c.1 + (f l).1, c.2 + (f l).2)),
      List.map_cons, List.map_cons, List.sum_cons, List.sum_cons]
    refine Prod.ext ?_ ?_ <;> dsimp <;> ring

theorem sumSpectra_rat (L : ℕ) (p : List ℚ) (ps : List (List ℚ))
    (hp : p.length = L) (hps : ∀ l ∈ ps, l.length = L) :
    ∃ s, sumSpectra (fun a b : ℚ => a + b) (p :: ps) = some s ∧ s.length = L ∧
      ∀ i : ℕ, i < L → s.getD i 0 = ((p :: ps).map (fun l => l.getD i 0)).sum := by
  obtain ⟨s, h1, h2, h3⟩ := sumSpectra_cons_spec (fun a b : ℚ => a + b) 0 L p ps hp hps
  refine ⟨s, h1, h2, fun i hi => ?_⟩
  rw [h3 i hi, List.map_cons, List.sum_cons]
  exact foldl_add_eq_sum (fun l => l.getD i 0) ps (p.getD i 0)

theorem sumSpectra_pair (L : ℕ) (p : List (ℚ × ℚ)) (ps : List (List (ℚ × ℚ)))
    (hp : p.length = L) (hps : ∀ l ∈ ps, l.length = L) :
    ∃ s, sumSpectra (fun a b : ℚ × ℚ => (a.1 + b.1, a.2 + b.2)) (p :: ps) = some s ∧
      s.length = L ∧ ∀ i : ℕ, i < L → s.getD i ((0 : ℚ), (0 : ℚ)) =
        (((p :: ps).map (fun l => (l.getD i ((0 : ℚ), (0 : ℚ))).1)).sum,
          ((p :: ps).map (fun l => (l.getD i ((0 : ℚ), (0 : ℚ))).2)).sum) := by
  obtain ⟨s, h1, h2, h3⟩ :=
    sumSpectra_cons_spec (fun a b : ℚ × ℚ => (a.1 + b.1, a.2 + b.2)) (0, 0) L p ps hp hps
  refine ⟨s, h1, h2, fun i hi => ?_⟩
  rw [h3 i hi, List.map_cons, List.map_cons, List.sum_cons, List.sum_cons]
  exact foldl_padd_eq_sum (fun l => l.getD i (0, 0)) ps (p.getD i (0, 0))

theorem allSome_length {α : Type} :
    ∀ (l : List (Option α)) (l2 : List α), allSome l = some l2 → l2.length = l.length
  | [], l2, h => by
    obtain rfl := Option.some.inj h
    rfl
  | none :: l, l2, h => by
    exact absurd h (by simp [allSome])
  | some a :: l, l2, h => by
    unfold allSome at h
    obtain ⟨l3, h3, rfl⟩ := Option.map_eq_some'.mp h
    simp [allSome_length l l3 h3]

/-- Claim C5 counterexample: for `time = [0, 1/4, 1/2]`, `gti = [(0, 3)]`
and `fftlen = 1` the planner yields two segments, `[0, 1)` and `[1, 2)`;
the second contains zero valid samples, and the Welch loop does not skip
it: adding its empty spectrum to the running sum is a numpy broadcast
error, so no averaged spectrum is returned at all. -/
theorem claim_C5_counterexample :
    mp_welch_pds (fun l => l.map (fun q => (q, 0))) (fun q => q)
        [0, 1/4, 1/2] [1, 1, 1] 1 1 [(0, 3)] = none ∧
      mp_decide_spectrum_intervals [((0 : ℚ), 3)] 1 = [0, 1] := by
  constructor
  · norm_num [mp_welch_pds, welch_pds_segments, mp_decide_spectrum_intervals,
      np_arange_eq_of_ceil 0 2 1 2 (by rw [Int.ceil_eq_iff]; norm_num), List.range_succ,
      segment_lc, List.filter_cons, mp_leahy_pds, np_fftfreq, sumSpectra,
      List.replicate_succ]
  · norm_num [mp_decide_spectrum_intervals,
      np_arange_eq_of_ceil 0 2 1 2 (by rw [Int.ceil_eq_iff]; norm_num), List.range_succ]

/-- Claim C5 (amended): the Welch averages perform no skipping — every
planned segment contributes, and a segment whose spectrum has a deviant
length (e.g. zero valid samples) makes the whole computation fail.  When
all planned per-segment spectra have a common length `L` (resp. `L2`) and
at least one segment is planned, `mp_welch_pds` (resp. `mp_welch_cpds`)
returns the arithmetic mean over all `n` planned segments at each bin, the
per-bin error `mean / sqrt(n)`, and `n` = the number of planned segment
starts. -/
theorem claim_C5 (fft : List ℚ → List (ℚ × ℚ)) (sqrtq : ℚ → ℚ)
    (time lc lc1 lc2 : List ℚ) (bintime fftlen : ℚ) (gti : List (ℚ × ℚ)) (L L2 : ℕ) :
    ((mp_decide_spectrum_intervals gti fftlen ≠ []) →
      (∀ sp ∈ welch_pds_segments fft time lc bintime fftlen gti, sp.2.length = L) →
      ∃ f pds epds, mp_welch_pds fft sqrtq time lc bintime fftlen gti =
          some (f, pds, epds, (mp_decide_spectrum_intervals gti fftlen).length)
        ∧ pds.length = L
        ∧ (∀ i : ℕ, i < L → pds.getD i 0 =
            ((welch_pds_segments fft time lc bintime fftlen gti).map
              (fun sp => sp.2.getD i 0)).sum /
              ((mp_decide_spectrum_intervals gti fftlen).length : ℚ))
        ∧ epds = pds.map (fun x =>
            x / sqrtq ((mp_decide_spectrum_intervals gti fftlen).length : ℚ)))
    ∧ (∀ segs2 : List (List ℚ × List (ℚ × ℚ)),
      (mp_decide_spectrum_intervals gti fftlen ≠ []) →
      allSome (welch_cpds_segments fft sqrtq time lc1 lc2 bintime fftlen gti) = some segs2 →
      (∀ sp ∈ segs2, sp.2.length = L2) →
      ∃ f cpds ecpds, mp_welch_cpds fft sqrtq time lc1 lc2 bintime fftlen gti =
          some (f, cpds, ecpds, (mp_decide_spectrum_intervals gti fftlen).length)
        ∧ cpds.length = L2
        ∧ (∀ i : ℕ, i < L2 → cpds.getD i ((0 : ℚ), (0 : ℚ)) =
            ((segs2.map (fun sp => (sp.2.getD i ((0 : ℚ), (0 : ℚ))).1)).sum /
                ((mp_decide_spectrum_intervals gti fftlen).length : ℚ),
              (segs2.map (fun sp => (sp.2.getD i ((0 : ℚ), (0 : ℚ))).2)).sum /
                ((mp_decide_spectrum_intervals gti fftlen).length : ℚ)))
        ∧ ecpds = cpds.map (fun z =>
            (z.1 / sqrtq ((mp_decide_spectrum_intervals gti fftlen).length : ℚ),
              z.2 / sqrtq ((mp_decide_spectrum_intervals gti fftlen).length : ℚ)))) := by
  constructor
  · intro hne hlen
    obtain ⟨p, ps, hcons⟩ :
        ∃ p ps, welch_pds_segments fft time lc bintime fftlen gti = p :: ps := by
      cases hsg : welch_pds_segments fft time lc bintime fftlen gti with
      | nil =>
        exfalso
        apply hne
        have hlg := congrArg List.length hsg
        simp only [welch_pds_segments, List.length_map, List.length_nil] at hlg
        exact List.length_eq_zero.mp hlg
      | cons p ps => exact ⟨p, ps, rfl⟩
    have hp2 : p.2.length = L := hlen p (by rw [hcons]; simp)
    have hps2 : ∀ l ∈ ps.map Prod.snd, l.length = L := by
      intro l hl
      obtain ⟨sp, hsp, rfl⟩ := List.mem_map.mp hl
      exact hlen sp (by rw [hcons]; simp [hsp])
    obtain ⟨s, hsum, hslen, hsget⟩ := sumSpectra_rat L p.2 (ps.map Prod.snd) hp2 hps2
    have hsum2 : sumSpectra (fun a b : ℚ => a + b)
        ((welch_pds_segments fft time lc bintime fftlen gti).map Prod.snd) = some s := by
      rw [hcons, List.map_cons]
      exact hsum
    obtain ⟨fp, hfp⟩ :
        ∃ fp, (welch_pds_segments fft time lc bintime fftlen gti).getLast? = some fp :=
      ⟨_, List.getLast?_eq_getLast _ (by rw [hcons]; simp)⟩
    refine ⟨fp.1,
      s.map (fun x => x / ((mp_decide_spectrum_intervals gti fftlen).length : ℚ)),
      (s.map (fun x => x / ((mp_decide_spectrum_intervals gti fftlen).length : ℚ))).map
        (fun x => x / sqrtq ((mp_decide_spectrum_intervals gti fftlen).length : ℚ)),
      ?_, by simp [hslen], ?_, rfl⟩
    · simp only [mp_welch_pds]
      rw [hfp, hsum2]
    · intro i hi
      have hgd : (s.map (fun x =>
          x / ((mp_decide_spectrum_intervals gti fftlen).length : ℚ))).getD i 0 =
          s.getD i 0 / ((mp_decide_spectrum_intervals gti fftlen).length : ℚ) := by
        rw [List.getD_eq_getElem _ _ (by simpa [hslen] using hi), List.getElem_map,
          List.getD_eq_getElem _ _ (by omega)]
      rw [hgd, hsget i hi, hcons]
      congr 1
      rw [List.map_cons, List.map_map]
      rfl
  · intro segs2 hne hall hlen2
    have hlensegs : segs2.length = (mp_decide_spectrum_intervals gti fftlen).length := by
      have h := allSome_length _ _ hall
      simpa only [welch_cpds_segments, List.length_map] using h
    obtain ⟨p, ps, rfl⟩ : ∃ p ps, segs2 = p :: ps := by
      cases segs2 with
      | nil =>
        exfalso
        apply hne
        exact List.length_eq_zero.mp (by simpa using hlensegs.symm)
      | cons p ps => exact ⟨p, ps, rfl⟩
    have hp2 : p.2.length = L2 := hlen2 p (by simp)
    have hps2 : ∀ l ∈ ps.map Prod.snd, l.length = L2 := by
      intro l hl
      obtain ⟨sp, hsp, rfl⟩ := List.mem_map.mp hl
      exact hlen2 sp (by simp [hsp])
    obtain ⟨s, hsum, hslen, hsget⟩ := sumSpectra_pair L2 p.2 (ps.map Prod.snd) hp2 hps2
    have hsum2 : sumSpectra (fun a b : ℚ × ℚ => (a.1 + b.1, a.2 + b.2))
        ((p :: ps).map Prod.snd) = some s := by
      rw [List.map_cons]
      exact hsum
    obtain ⟨fp, hfp⟩ : ∃ fp, (p :: ps).getLast? = some fp :=
      ⟨_, List.getLast?_eq_getLast _ (by simp)⟩
    refine ⟨fp.1,
      s.map (fun z => (z.1 / ((mp_decide_spectrum_intervals gti fftlen).length : ℚ),
        z.2 / ((mp_decide_spectrum_intervals gti fftlen).length : ℚ))),
      (s.map (fun z => (z.1 / ((mp_decide_spectrum_intervals gti fftlen).length : ℚ),
        z.2 / ((mp_decide_spectrum_intervals gti fftlen).length : ℚ)))).map
        (fun z => (z.1 / sqrtq ((mp_decide_spectrum_intervals gti fftlen).length : ℚ),
          z.2 / sqrtq ((mp_decide_spectrum_intervals gti fftlen).length : ℚ))),
      ?_, by simp [hslen], ?_, rfl⟩
    · simp only [mp_welch_cpds]
      rw [hall]
      simp only [Option.some_bind]
      rw [hfp, hsum2]
    · intro i hi
      have hgd : (s.map (fun z =>
          (z.1 / ((mp_decide_spectrum_intervals gti fftlen).length : ℚ),
            z.2 / ((mp_decide_spectrum_intervals gti fftlen).length : ℚ)))).getD i (0, 0) =
          ((s.getD i (0, 0)).1 / ((mp_decide_spectrum_intervals gti fftlen).length : ℚ),
            (s.getD i (0, 0)).2 / ((mp_decide_spectrum_intervals gti fftlen).length : ℚ)) := by
        rw [List.getD_eq_getElem _ _ (by simpa [hslen] using hi), List.getElem_map,
          List.getD_eq_getElem _ _ (by omega)]
      rw [hgd, hsget i hi]
      refine Prod.ext ?_ ?_ <;> dsimp only <;> congr 1 <;>
        (rw [List.map_cons, List.map_map]; rfl)

/-- Claim C5 witness: a gap-free light curve with two planned segments of
three samples each yields an averaged spectrum. -/
theorem claim_C5_witness :
    (mp_welch_pds (fun l => l.map (fun q => (q, 0))) (fun q => q)
      [0, 1/4, 1/2, 1, 5/4, 3/2] [1, 1, 1, 1, 1, 1] 1 1 [(0, 3)]).isSome = true := by
  have hsegs : welch_pds_segments (fun l => l.map (fun q => (q, 0)))
      [0, 1/4, 1/2, 1, 5/4, 3/2] [1, 1, 1, 1, 1, 1] 1 1 [(0, 3)] =
      [([0, 1/3], [2/3, 2/3]), ([0, 1/3], [2/3, 2/3])] := by
    norm_num [welch_pds_segments, mp_decide_spectrum_intervals,
      np_arange_eq_of_ceil 0 2 1 2 (by rw [Int.ceil_eq_iff]; norm_num), List.range_succ,
      segment_lc, List.filter_cons, mp_leahy_pds, np_fftfreq, List.replicate_succ]
  have hstarts : mp_decide_spectrum_intervals [((0 : ℚ), 3)] 1 ≠ [] := by
    have h2 : mp_decide_spectrum_intervals [((0 : ℚ), 3)] 1 = [0, 1] := by
      norm_num [mp_decide_spectrum_intervals,
        np_arange_eq_of_ceil 0 2 1 2 (by rw [Int.ceil_eq_iff]; norm_num), List.range_succ]
    rw [h2]
    exact List.cons_ne_nil _ _
  obtain ⟨f, pds, epds, heq, -⟩ :=
    (claim_C5 (fun l => l.map (fun q => (q, 0))) (fun q => q)
      [0, 1/4, 1/2, 1, 5/4, 3/2] [1, 1, 1, 1, 1, 1] [] [] 1 1 [(0, 3)] 2 0).1 hstarts
      (by
        rw [hsegs]
        intro sp hsp
        rcases List.mem_cons.mp hsp with rfl | h2
        · norm_num
        · rcases List.mem_cons.mp h2 with rfl | h3
          · norm_num
          · exact absurd h3 (List.not_mem_nil sp))
  rw [heq]
  rfl
